import Mathlib

/-!
Verification development for the MyWorld browser verification scripts and the
UI Verification Harness core they approximate.

Part A embeds, directly from the Python sources, the port-resolution helpers
(`get_dev_server_url` in `verify_imprenta.py`, `get_port` in
`verification/verify_sidebar_ghost.py`, and the inline port block of
`verification/verify_director.py`), including their exception behaviour.

Part B models the harness core (Target Resolver, Locator Strategy Chain,
Readiness Gate / polled waits, Assertion Engine, Scenario Runner, Artifact
Recorder) from the specification, since no script implements it as a reusable
component.
-/

namespace MyWorld

/-- Outcome of a Python `open(path, "r").read()`, as the runtime reports it:
the decoded contents, `FileNotFoundError`, another `OSError` (file present
but unreadable, e.g. `PermissionError`), or a file that opens but whose
bytes fail to decode (`UnicodeDecodeError`, a `ValueError`). -/
inductive ReadResult where
  | ok (content : String)
  | notFound
  | permissionDenied
  | undecodable
deriving DecidableEq

/-- Python exception classes that the embedded helpers can let escape:
`OSError` (e.g. `PermissionError`) and `ValueError`
(e.g. `UnicodeDecodeError`). -/
inductive PyExc where
  | osError
  | valueError
deriving DecidableEq

/-- Observable side effects of a helper: a file read, or a network probe.
The embedded helpers are translated with the effects their source performs. -/
inductive Effect where
  | fileRead (path : String)
  | netProbe (url : String)
deriving DecidableEq

/-- Longest run of characters satisfying `p` at the front of a character
list (the greedy semantics of a regex class matched with `+`). -/
def charRun (p : Char → Bool) : List Char → List Char
  | [] => []
  | c :: cs => if p c then c :: charRun p cs else []

/-- The character classes `\d` and `\s` of the regex engine the scripts run
under. Python 3's `re` on `str` patterns is Unicode-aware: `\d` is the full
Unicode decimal-digit category Nd (a strict superset of the ASCII digits)
and `\s` the Unicode whitespace set; their exact tables are data of the
interpreter's Unicode database, external to the scripts' text, so the
embedding is parameterized over them and theorems assume only what holds in
every Unicode version (the ASCII digits belong to `\d`). -/
structure RegexClasses where
  isD : Char → Bool
  isS : Char → Bool

/-- Whitespace restricted to the ASCII range, where Python's `\s` and this
predicate agree. -/
def pyIsSpace (c : Char) : Bool :=
  c.isWhitespace || c = '\x0b' || c = '\x0c'

/-- The ASCII instance of the engine's character classes, used where only
ASCII content is at stake (the spec-modelled log scan, concrete
witnesses). -/
def asciiClasses : RegexClasses := ⟨Char.isDigit, pyIsSpace⟩

/-- The literal head every matched dev-server URL starts with. -/
def urlHead : List Char := "http://localhost:".toList

/-- Attempt, at the current position, the regex `http://localhost:` followed
by one or more `\d` characters; returns the whole match (regex group 0). -/
def matchUrlAt (rc : RegexClasses) (cs : List Char) : Option (List Char) :=
  if urlHead.isPrefixOf cs then
    let d := charRun rc.isD (cs.drop urlHead.length)
    if d = [] then none else some (urlHead ++ d)
  else none

/-- Leftmost search for `http://localhost:` followed by one or more `\d`
characters, mirroring `re.search(r"http://localhost:\d+", content)`. -/
def searchUrl (rc : RegexClasses) : List Char → Option (List Char)
  | [] => none
  | c :: cs =>
    match matchUrlAt rc (c :: cs) with
    | some m => some m
    | none => searchUrl rc cs

/-- Leftmost search that returns only the digit group, mirroring
`re.search(r"http://localhost:(\d+)", content)` and `match.group(1)`. -/
def searchUrlPort (rc : RegexClasses) : List Char → Option (List Char)
  | [] => none
  | c :: cs =>
    match matchUrlAt rc (c :: cs) with
    | some _ => some (charRun rc.isD ((c :: cs).drop urlHead.length))
    | none => searchUrlPort rc cs

/-- Attempt, at the current position, the regex
`Local:\s+http://localhost:(\d+)/`; returns the digit group. -/
def matchGhostAt (rc : RegexClasses) (cs : List Char) : Option (List Char) :=
  if "Local:".toList.isPrefixOf cs then
    let r1 := cs.drop "Local:".toList.length
    let ws := charRun rc.isS r1
    if ws = [] then none
    else
      let r2 := r1.drop ws.length
      if urlHead.isPrefixOf r2 then
        let d := charRun rc.isD (r2.drop urlHead.length)
        if d = [] then none
        else
          match (r2.drop urlHead.length).drop d.length with
          | '/' :: _ => some d
          | _ => none
      else none
  else none

/-- Leftmost search for `Local:\s+http://localhost:(\d+)/`, mirroring the
`re.search` in `get_port`. -/
def searchGhostPort (rc : RegexClasses) : List Char → Option (List Char)
  | [] => none
  | c :: cs =>
    match matchGhostAt rc (c :: cs) with
    | some d => some d
    | none => searchGhostPort rc cs

/-- Embedding of `get_dev_server_url` from `verify_imprenta.py`: read
`dev_output.log`, return the first `http://localhost:\d+` match, else the
default `http://localhost:5173`. Only `FileNotFoundError` is caught, so an
`OSError` such as `PermissionError`, or the `UnicodeDecodeError` of an
undecodable file, escapes. The second component records the side effects
the source performs (a file read; never a network probe). -/
def get_dev_server_url (rc : RegexClasses) (fs : ReadResult) :
    Except PyExc String × List Effect :=
  match fs with
  | .ok content =>
    (match searchUrl rc content.toList with
     | some m => (.ok (String.mk m), [.fileRead "dev_output.log"])
     | none => (.ok "http://localhost:5173", [.fileRead "dev_output.log"]))
  | .notFound => (.ok "http://localhost:5173", [.fileRead "dev_output.log"])
  | .permissionDenied => (.error .osError, [.fileRead "dev_output.log"])
  | .undecodable => (.error .valueError, [.fileRead "dev_output.log"])

/-- Embedding of `get_port` from `verification/verify_sidebar_ghost.py`: read
`dev_output_ghost.log`, return the digit group of
`Local:\s+http://localhost:(\d+)/`, else the default `"3001"`. The bare
`except Exception` catches every read error (`OSError` and
`UnicodeDecodeError` alike), so the helper is total. -/
def get_port (rc : RegexClasses) (fs : ReadResult) : String × List Effect :=
  match fs with
  | .ok content =>
    (match searchGhostPort rc content.toList with
     | some d => (String.mk d, [.fileRead "dev_output_ghost.log"])
     | none => ("3001", [.fileRead "dev_output_ghost.log"]))
  | .notFound => ("3001", [.fileRead "dev_output_ghost.log"])
  | .permissionDenied => ("3001", [.fileRead "dev_output_ghost.log"])
  | .undecodable => ("3001", [.fileRead "dev_output_ghost.log"])

/-- Embedding of the inline port block of `run` in
`verification/verify_director.py`: default `"5173"`; if `dev_output.log`
exists, read it and take the digit group of `http://localhost:(\d+)`. The
read is guarded only by `os.path.exists`, so a present-but-unreadable file
raises an uncaught `OSError` and an undecodable one an uncaught
`UnicodeDecodeError`. -/
def director_port (rc : RegexClasses) (fs : ReadResult) :
    Except PyExc String × List Effect :=
  match fs with
  | .ok content =>
    (match searchUrlPort rc content.toList with
     | some d => (.ok (String.mk d), [.fileRead "dev_output.log"])
     | none => (.ok "5173", [.fileRead "dev_output.log"]))
  | .notFound => (.ok "5173", [])
  | .permissionDenied => (.error .osError, [.fileRead "dev_output.log"])
  | .undecodable => (.error .valueError, [.fileRead "dev_output.log"])

/-- A nonempty string all of whose characters lie in the digit class `isD`,
the shape of a valid port string relative to the engine's `\d`. -/
def isPortStringBy (isD : Char → Bool) (s : String) : Bool :=
  !s.toList.isEmpty && s.toList.all isD

/-- A base URL of the shape `http://localhost:<digits>` with the digits
taken relative to the engine's `\d` class `isD`. -/
def isBaseUrlBy (isD : Char → Bool) (s : String) : Bool :=
  urlHead.isPrefixOf s.toList &&
    !(s.toList.drop urlHead.length).isEmpty &&
    (s.toList.drop urlHead.length).all isD

/-- A digit class containing the ASCII digits and the Arabic-Indic digits
U+0660..U+0669 (a fragment of Unicode Nd), used to demonstrate the
Unicode-aware behaviour of the embedded helpers on concrete content. -/
def ndSampleClasses : RegexClasses :=
  ⟨fun c => c.isDigit || (decide (1632 ≤ c.toNat) && decide (c.toNat ≤ 1641)),
   pyIsSpace⟩

/-! ## Part B: the harness core, modelled from the specification. -/

/-- Modelled from the spec: error taxonomy of §7; the step-level kinds keep
`notFound` (a locator problem) distinct from `assertionMismatch` (an
expectation problem). -/
inductive ErrorKind where
  | resolutionError
  | readinessTimeout
  | notFound
  | ambiguousMatch
  | actionError
  | assertionMismatch
  | artifactError
  | cancelled
deriving DecidableEq

/-- Modelled from the spec: `TargetEndpoint { host, port, scheme }` (§3). -/
structure TargetEndpoint where
  host : String
  port : Nat
  scheme : String
deriving DecidableEq

/-- Modelled from the spec: an ordered target hint — explicit host:port, a
log file to scan for a served URL, or a conventional default port (§4.1). -/
inductive EndpointHint where
  | explicitHint (host : String) (port : Nat)
  | logfileHint (path : String)
  | defaultPort (port : Nat)
deriving DecidableEq

/-- Numeric value of a digit run (how a scanned port string is used). -/
def digitsToNat (d : List Char) : Nat :=
  d.foldl (fun n c => 10 * n + (c.toNat - '0'.toNat)) 0

/-- Modelled from the spec: derive a candidate endpoint from one hint (§4.1);
a log-file hint that cannot be read or holds no served-URL line derives
nothing and is skipped. -/
def deriveCandidate (fs : String → ReadResult) : EndpointHint → Option TargetEndpoint
  | .explicitHint h p => some ⟨h, p, "http"⟩
  | .logfileHint path =>
    match fs path with
    | .ok content =>
      match searchUrlPort asciiClasses content.toList with
      | some d => some ⟨"localhost", digitsToNat d, "http"⟩
      | none => none
    | _ => none
  | .defaultPort p => some ⟨"localhost", p, "http"⟩

/-- Modelled from the spec: the Target Resolver (§4.1) — for each hint in
order, derive a candidate, probe it, and return the first endpoint that
responds; exhausting all hints is a `ResolutionError` (here `none`). -/
def resolve (probe : TargetEndpoint → Bool) (fs : String → ReadResult) :
    List EndpointHint → Option TargetEndpoint
  | [] => none
  | h :: t =>
    match deriveCandidate fs h with
    | some e => if probe e then some e else resolve probe fs t
    | none => resolve probe fs t

/-- Modelled from the spec: locator strategy kinds, most to least robust
(§4.3). -/
inductive StrategyKind where
  | role
  | label
  | text
  | css
  | geometry
deriving DecidableEq

/-- Modelled from the spec: one locator strategy — a kind, a matcher over the
current DOM yielding the element ids it matches, and its own sub-timeout
budget in polling ticks (§3, §4.3). -/
structure LocatorStrategy (Dom : Type) where
  kind : StrategyKind
  hits : Dom → List Nat
  subTimeout : Nat

/-- Modelled from the spec: locator chain failures — `AmbiguousMatch` when a
strategy overmatches, `NotFound` when the chain exhausts (§4.3). -/
inductive LocError where
  | ambiguousMatch
  | notFound
deriving DecidableEq

/-- Modelled from the spec: the Locator Strategy Chain against a fixed DOM —
strategies in declared order; exactly one match wins; more than one match is
an ambiguous resolution failure, never a silent first pick (§3, §4.3). -/
def locate {Dom : Type} (strategies : List (LocatorStrategy Dom)) (dom : Dom) :
    Except LocError Nat :=
  match strategies with
  | [] => .error .notFound
  | s :: rest =>
    match s.hits dom with
    | [e] => .ok e
    | [] => locate rest dom
    | _ :: _ :: _ => .error .ambiguousMatch

/-- Modelled from the spec: poll one strategy each tick over an evolving DOM
until its fuel (sub-timeout) runs out; a unique match succeeds, an overmatch
is ambiguous, no match polls again next tick (§4.3). -/
def pollStrategy {Dom : Type} (s : LocatorStrategy Dom) (domAt : Nat → Dom) :
    Nat → Nat → Option (Except LocError Nat)
  | _, 0 => none
  | start, fuel + 1 =>
    match s.hits (domAt start) with
    | [e] => some (.ok e)
    | [] => pollStrategy s domAt (start + 1) fuel
    | _ :: _ :: _ => some (.error .ambiguousMatch)

/-- Modelled from the spec: the timed Locator Strategy Chain — each strategy
receives its full sub-timeout of polling before the chain advances to the
next strategy (§4.3). -/
def locateTimed {Dom : Type} (strategies : List (LocatorStrategy Dom))
    (domAt : Nat → Dom) (start : Nat) : Except LocError Nat :=
  match strategies with
  | [] => .error .notFound
  | s :: rest =>
    match pollStrategy s domAt start s.subTimeout with
    | some r => r
    | none => locateTimed rest domAt (start + s.subTimeout)

/-- Modelled from the spec: the one blocking primitive — poll a condition
once per tick within a fuel budget; return the first tick where it holds,
or `none` when the budget is exhausted (§5, §9). -/
def pollUntil (cond : Nat → Bool) : Nat → Nat → Option Nat
  | _, 0 => none
  | start, fuel + 1 => if cond start then some start else pollUntil cond (start + 1) fuel

/-- Modelled from the spec: a readiness policy — required signals that must
all hold, an optional any-of group, and a timeout budget (§4.2). -/
structure ReadinessPolicy where
  requiredSignals : List (Nat → Bool)
  anyOfSignals : List (Nat → Bool)
  timeoutMs : Nat

/-- Modelled from the spec: all required signals hold and, when an any-of
group is configured, at least one of its members holds (§4.2). -/
def signalsHold (p : ReadinessPolicy) (t : Nat) : Bool :=
  p.requiredSignals.all (fun s => s t) &&
    (p.anyOfSignals.isEmpty || p.anyOfSignals.any (fun s => s t))

/-- Modelled from the spec: the Readiness Gate — poll the composite signal
within the policy budget; exhaustion is a `ReadinessTimeout` (§4.2). -/
def awaitReady (p : ReadinessPolicy) (start : Nat) : Except ErrorKind Nat :=
  match pollUntil (signalsHold p) start p.timeoutMs with
  | some t => .ok t
  | none => .error .readinessTimeout

/-- Modelled from the spec: a DOM element as the Assertion Engine observes
it — the selector it answers to, visibility, attributes, text (§4.5). -/
structure PageElem where
  selector : String
  visible : Bool
  attrs : List (String × String)
  text : String
deriving DecidableEq

/-- Modelled from the spec: a browser page session that may have died
(harness-internal fault) and its current DOM (§4.5). -/
structure Session where
  alive : Bool
  dom : List PageElem
deriving DecidableEq

/-- Comparison operators for element-count expectations. -/
inductive CmpOp where
  | eqTo
  | ltTo
  | gtTo
deriving DecidableEq

/-- Modelled from the spec: expectation kinds — element-visible,
element-absent, attribute-equals, text-contains, element-count-compare
(§4.5). -/
inductive Expectation where
  | elementVisible (sel : String)
  | elementAbsent (sel : String)
  | attributeEquals (sel attr val : String)
  | textContains (sel sub : String)
  | elementCountCompare (sel : String) (op : CmpOp) (n : Nat)
deriving DecidableEq

/-- Modelled from the spec: the structured verdict of an assertion —
`{ holds, actual, expected }` (§4.5). -/
structure AssertionOutcome where
  holds : Bool
  actual : String
  expected : String
deriving DecidableEq

/-- Modelled from the spec: the only harness-internal fault the Assertion
Engine may raise — the page session is dead (§4.5). -/
inductive HarnessFault where
  | sessionDead
deriving DecidableEq

/-- Elements of the DOM matched by a selector. -/
def matchingElems (dom : List PageElem) (sel : String) : List PageElem :=
  dom.filter (fun e => e.selector == sel)

/-- Attribute lookup on an element, empty when absent. -/
def getAttr (e : PageElem) (a : String) : String :=
  ((e.attrs.find? (fun pr => pr.1 == a)).map Prod.snd).getD ""

/-- Does `sub` occur inside `hay`? -/
def listContains (hay sub : List Char) : Bool :=
  match hay with
  | [] => sub.isEmpty
  | _ :: t => sub.isPrefixOf hay || listContains t sub

/-- Modelled from the spec: total evaluation of an expectation against a DOM;
an unmatched selector makes the expectation fail (or hold, for absence) —
it is data, never an exception (§4.5). -/
def evalExpectation (dom : List PageElem) : Expectation → AssertionOutcome
  | .elementVisible sel =>
    let vis := (matchingElems dom sel).any (·.visible)
    ⟨vis, if vis then "visible" else "not visible", "visible"⟩
  | .elementAbsent sel =>
    let present := !(matchingElems dom sel).isEmpty
    ⟨!present, if present then "present" else "absent", "absent"⟩
  | .attributeEquals sel attr v =>
    match matchingElems dom sel with
    | [] => ⟨false, "", v⟩
    | e :: _ => ⟨getAttr e attr == v, getAttr e attr, v⟩
  | .textContains sel sub =>
    match matchingElems dom sel with
    | [] => ⟨false, "", sub⟩
    | e :: _ => ⟨listContains e.text.toList sub.toList, e.text, sub⟩
  | .elementCountCompare sel op n =>
    let c := (matchingElems dom sel).length
    ⟨match op with
      | .eqTo => c == n
      | .ltTo => decide (c < n)
      | .gtTo => decide (n < c), toString c, toString n⟩

/-- Modelled from the spec: the Assertion Engine — returns the structured
outcome for every expectation, failed or not; raises only when the session
is dead (§4.5). -/
def assertState (s : Session) (e : Expectation) : Except HarnessFault AssertionOutcome :=
  if s.alive then .ok (evalExpectation s.dom e) else .error .sessionDead

/-- Modelled from the spec: artifact kinds (§3). -/
inductive ArtifactKind where
  | screenshot
  | domDump
  | log
deriving DecidableEq

/-- Modelled from the spec: a captured artifact tied to a step (§3). -/
structure Artifact where
  kind : ArtifactKind
  path : String
  stepRef : Nat
deriving DecidableEq

/-- Modelled from the spec: step action kinds (§3). -/
inductive StepAction where
  | navigate
  | waitReady
  | locateTarget
  | interact
  | checkState
  | captureEvidence
deriving DecidableEq

/-- Modelled from the spec: an immutable step of a scenario (§3). -/
structure Step where
  name : String
  action : StepAction
  timeout : Nat
deriving DecidableEq

/-- Modelled from the spec: a scenario — a name, an ordered step sequence,
and its artifact namespace (§3). -/
structure Scenario where
  name : String
  steps : List Step
  artifactsDir : String
deriving DecidableEq

/-- Modelled from the spec: step status (§3). -/
inductive StepStatus where
  | ok
  | failed
  | skipped
deriving DecidableEq

/-- Modelled from the spec: the recorded result of one step (§3). -/
structure StepResult where
  stepName : String
  status : StepStatus
  err : Option ErrorKind
  artifactRefs : List Artifact
deriving DecidableEq

/-- Modelled from the spec: scenario status (§3). -/
inductive ScenarioStatus where
  | pass
  | fail
deriving DecidableEq

/-- Modelled from the spec: the terminal value of a scenario run (§3, §4.7),
extended with the session bookkeeping §4.7 promises (a session, once opened,
is closed on every termination path). -/
structure ScenarioResult where
  scenarioName : String
  status : ScenarioStatus
  failedStep : Option Nat
  results : List StepResult
  artifacts : List Artifact
  sessionOpened : Bool
  sessionClosed : Bool
deriving DecidableEq

/-- Outcome the environment hands one step: success, or failure with an
error kind (a raised step error and a failed verification are both step
failures to the runner, §4.7). -/
inductive StepOutcome where
  | ok
  | fail (e : ErrorKind)
deriving DecidableEq

/-- Environment oracle for one scenario run: whether resolution, navigation
and readiness succeed, and each step's outcome by index. -/
structure World where
  resolves : Bool
  navOk : Bool
  readyOk : Bool
  stepOutcome : Nat → StepOutcome

/-- Modelled from the spec: the automatic capture on failure — screenshot,
DOM dump and console buffer, namespaced by scenario and step (§4.6). -/
def failureCapture (dir : String) (idx : Nat) : List Artifact :=
  [⟨.screenshot, dir ++ "/" ++ toString idx ++ "_failure.png", idx⟩,
   ⟨.domDump, dir ++ "/" ++ toString idx ++ "_dom.html", idx⟩,
   ⟨.log, dir ++ "/" ++ toString idx ++ "_console.log", idx⟩]

/-- Modelled from the spec: the Scenario Runner's step loop (§4.7) — strict
order, and on the first failure the evidence is captured, the failed
StepResult recorded, and no later step runs. -/
def runSteps (w : World) (dir : String) : List Step → Nat → List StepResult
  | [], _ => []
  | st :: rest, idx =>
    match w.stepOutcome idx with
    | .ok => ⟨st.name, .ok, none, []⟩ :: runSteps w dir rest (idx + 1)
    | .fail e => [⟨st.name, .failed, some e, failureCapture dir idx⟩]

/-- Index of the first failed step result, if any. -/
def firstFailedIdx (rs : List StepResult) : Option Nat :=
  rs.findIdx? (fun r => r.status == .failed)

/-- Modelled from the spec: the Scenario Runner state machine body (§4.7) —
Resolving, SessionOpen (navigation), Ready, then the step loop; any failure
aborts with a fail result; resolution failure aborts before a session
opens. -/
def runScenarioBody (w : World) (sc : Scenario) : ScenarioResult :=
  if !w.resolves then
    ⟨sc.name, .fail, none, [], [], false, false⟩
  else if !w.navOk then
    ⟨sc.name, .fail, none, [], failureCapture sc.artifactsDir 0, true, false⟩
  else if !w.readyOk then
    ⟨sc.name, .fail, none, [], failureCapture sc.artifactsDir 0, true, false⟩
  else
    let rs := runSteps w sc.artifactsDir sc.steps 0
    match firstFailedIdx rs with
    | some i =>
      ⟨sc.name, .fail, some i, rs, rs.foldr (fun r acc => r.artifactRefs ++ acc) [], true, false⟩
    | none => ⟨sc.name, .pass, none, rs, [], true, false⟩

/-- Modelled from the spec: scoped resource release — the session, when it
was opened, is closed on exit from `Completed` or `Aborted` alike (§4.7). -/
def closeSession (r : ScenarioResult) : ScenarioResult :=
  { r with sessionClosed := r.sessionOpened }

/-- Modelled from the spec: one full scenario run — the state machine body
wrapped in the unconditional session release (§4.7). -/
def runScenario (w : World) (sc : Scenario) : ScenarioResult :=
  closeSession (runScenarioBody w sc)

/-- Modelled from the spec: the process exit contract — 0 iff every
scenario passed (§6). -/
def exitCode (rs : List ScenarioResult) : Nat :=
  if rs.all (fun r => r.status == .pass) then 0 else 1

/-- Modelled from the spec: a whole run — every scenario executed in its own
world, plus the process exit code (§6). -/
def runAll (ws : List (World × Scenario)) : List ScenarioResult × Nat :=
  let rs := ws.map (fun pr => runScenario pr.1 pr.2)
  (rs, exitCode rs)

/-! ## Concrete instances used by the closed witness theorems. -/

/-- The hint list of the spec's end-to-end example: an explicit dead
`localhost:9999` before the live default `localhost:3000`. -/
def hintsW : List EndpointHint :=
  [.explicitHint "localhost" 9999, .defaultPort 3000]

/-- A probe under which only port 3000 is live. -/
def probeW : TargetEndpoint → Bool := fun e => e.port == 3000

/-- A filesystem with no log files. -/
def fsEmptyW : String → ReadResult := fun _ => .notFound

/-- A chain whose first strategy matches nothing and whose second strategy
overmatches. -/
def stratAmbW : List (LocatorStrategy Unit) :=
  [⟨.role, fun _ => [], 5⟩, ⟨.css, fun _ => [1, 2], 5⟩]

/-- A strategy whose element mounts at tick 2, within its sub-timeout of 5. -/
def stratLateW : LocatorStrategy Nat :=
  ⟨.role, fun d => if 2 ≤ d then [7] else [], 5⟩

/-- Three concrete steps. -/
def stepsW : List Step :=
  [⟨"open-director", .interact, 5000⟩,
   ⟨"open-history", .interact, 5000⟩,
   ⟨"shot-drawer", .captureEvidence, 5000⟩]

/-- A world in which the second step (index 1) fails its verification. -/
def worldFailW : World :=
  ⟨true, true, true, fun i => if i == 1 then .fail .assertionMismatch else .ok⟩

/-- A world in which everything succeeds. -/
def worldPassW : World := ⟨true, true, true, fun _ => .ok⟩

/-- A concrete scenario. -/
def scW : Scenario := ⟨"director", stepsW, "verification/director"⟩

/-- A live session whose DOM has one visible main region. -/
def sessionW : Session :=
  ⟨true, [⟨"main", true, [("role", "main")], "Historial de Sesiones"⟩]⟩

/-- An expectation that fails on `sessionW` (no such element). -/
def expFailW : Expectation := .elementVisible "missing-button"

/-- A condition that first holds at tick 2. -/
def condW : Nat → Bool := fun t => t == 2

/-- A one-scenario run in which that scenario passes. -/
def wsAllPassW : List (World × Scenario) := [(worldPassW, scW)]

/-! ## Lemmas about the embedded string scanners. -/

theorem charRun_mem (p : Char → Bool) (cs : List Char) :
    ∀ c ∈ charRun p cs, p c = true := by
  induction cs with
  | nil => simp [charRun]
  | cons a t ih =>
    simp only [charRun]
    split
    · intro c hc
      rcases List.mem_cons.mp hc with h | h
      · subst h; assumption
      · exact ih c h
    · simp

theorem isPrefixOf_append (l t : List Char) : l.isPrefixOf (l ++ t) = true := by
  induction l with
  | nil => simp [List.isPrefixOf]
  | cons a l ih => simp [List.isPrefixOf, ih]

theorem isPortStringBy_mk {isD : Char → Bool} {d : List Char} (hne : d ≠ [])
    (hd : ∀ c ∈ d, isD c = true) : isPortStringBy isD (String.mk d) = true := by
  unfold isPortStringBy
  have ht : (String.mk d).toList = d := rfl
  rw [ht]
  cases d with
  | nil => exact absurd rfl hne
  | cons a t =>
    simp only [List.isEmpty, Bool.not_false, Bool.true_and, List.all_eq_true]
    exact fun c hc => hd c hc

theorem isBaseUrlBy_append {isD : Char → Bool} {d : List Char} (hne : d ≠ [])
    (hd : ∀ c ∈ d, isD c = true) :
    isBaseUrlBy isD (String.mk (urlHead ++ d)) = true := by
  unfold isBaseUrlBy
  have ht : (String.mk (urlHead ++ d)).toList = urlHead ++ d := rfl
  rw [ht, List.drop_left, isPrefixOf_append]
  cases d with
  | nil => exact absurd rfl hne
  | cons a t =>
    simp only [List.isEmpty, Bool.not_false, Bool.true_and, List.all_eq_true]
    exact fun c hc => hd c hc

theorem isPortStringBy_mono {isD : Char → Bool}
    (hD : ∀ c, c.isDigit = true → isD c = true) {s : String}
    (h : isPortStringBy Char.isDigit s = true) : isPortStringBy isD s = true := by
  unfold isPortStringBy at h ⊢
  simp only [Bool.and_eq_true, List.all_eq_true] at h ⊢
  exact ⟨h.1, fun c hc => hD c (h.2 c hc)⟩

theorem isBaseUrlBy_mono {isD : Char → Bool}
    (hD : ∀ c, c.isDigit = true → isD c = true) {s : String}
    (h : isBaseUrlBy Char.isDigit s = true) : isBaseUrlBy isD s = true := by
  unfold isBaseUrlBy at h ⊢
  simp only [Bool.and_eq_true, List.all_eq_true] at h ⊢
  exact ⟨⟨h.1.1, h.1.2⟩, fun c hc => hD c (h.2 c hc)⟩

theorem matchUrlAt_some {rc : RegexClasses} {cs m : List Char}
    (h : matchUrlAt rc cs = some m) :
    charRun rc.isD (cs.drop urlHead.length) ≠ [] ∧
      m = urlHead ++ charRun rc.isD (cs.drop urlHead.length) := by
  by_cases hp : urlHead.isPrefixOf cs = true
  · by_cases hd : charRun rc.isD (cs.drop urlHead.length) = []
    · simp [matchUrlAt, hp, hd] at h
    · simp only [matchUrlAt, hp, if_true, if_neg hd, Option.some.injEq] at h
      exact ⟨hd, h.symm⟩
  · simp [matchUrlAt, hp] at h

theorem searchUrl_some {rc : RegexClasses} {cs m : List Char}
    (h : searchUrl rc cs = some m) :
    ∃ d, d ≠ [] ∧ (∀ c ∈ d, rc.isD c = true) ∧ m = urlHead ++ d := by
  induction cs with
  | nil => simp [searchUrl] at h
  | cons a t ih =>
    rw [searchUrl] at h
    cases hma : matchUrlAt rc (a :: t) with
    | some m' =>
      rw [hma] at h
      obtain ⟨hne, hm⟩ := matchUrlAt_some hma
      exact ⟨charRun rc.isD ((a :: t).drop urlHead.length), hne,
        charRun_mem _ _, (Option.some.inj h) ▸ hm⟩
    | none =>
      rw [hma] at h
      exact ih h

theorem searchUrlPort_some {rc : RegexClasses} {cs d : List Char}
    (h : searchUrlPort rc cs = some d) :
    d ≠ [] ∧ ∀ c ∈ d, rc.isD c = true := by
  induction cs with
  | nil => simp [searchUrlPort] at h
  | cons a t ih =>
    rw [searchUrlPort] at h
    cases hma : matchUrlAt rc (a :: t) with
    | some m' =>
      rw [hma] at h
      obtain ⟨hne, _⟩ := matchUrlAt_some hma
      have hd : d = charRun rc.isD ((a :: t).drop urlHead.length) :=
        (Option.some.inj h).symm
      exact ⟨hd ▸ hne, hd ▸ charRun_mem _ _⟩
    | none =>
      rw [hma] at h
      exact ih h

theorem matchGhostAt_some {rc : RegexClasses} {cs d : List Char}
    (h : matchGhostAt rc cs = some d) :
    d ≠ [] ∧ ∀ c ∈ d, rc.isD c = true := by
  simp [matchGhostAt] at h
  obtain ⟨-, -, -, hne, hm⟩ := h
  split at hm
  · have hd : d = charRun rc.isD _ := (Option.some.inj hm).symm
    exact ⟨hd ▸ hne, hd ▸ charRun_mem _ _⟩
  · exact absurd hm (by simp)

theorem searchGhostPort_some {rc : RegexClasses} {cs d : List Char}
    (h : searchGhostPort rc cs = some d) :
    d ≠ [] ∧ ∀ c ∈ d, rc.isD c = true := by
  induction cs with
  | nil => simp [searchGhostPort] at h
  | cons a t ih =>
    rw [searchGhostPort] at h
    cases hma : matchGhostAt rc (a :: t) with
    | some d' =>
      rw [hma] at h
      exact (Option.some.inj h) ▸ matchGhostAt_some hma
    | none =>
      rw [hma] at h
      exact ih h

/-! ## Claim C10 -/

/-- Claim C10 counterexample: the port-resolution helpers are not all total
over every filesystem state. When the log file exists but is unreadable
(`PermissionError`), or opens but fails to decode (`UnicodeDecodeError`, a
`ValueError`), `get_dev_server_url` catches only `FileNotFoundError` and the
`verify_director` port block guards only with `os.path.exists`, so both let
the exception escape instead of terminating normally; only `get_port`, with
its bare `except Exception`, returns its default on both states. -/
theorem port_helper_raises_on_unreadable_log :
    (get_dev_server_url asciiClasses ReadResult.permissionDenied).1 =
      Except.error PyExc.osError ∧
    (director_port asciiClasses ReadResult.permissionDenied).1 =
      Except.error PyExc.osError ∧
    (get_dev_server_url asciiClasses ReadResult.undecodable).1 =
      Except.error PyExc.valueError ∧
    (director_port asciiClasses ReadResult.undecodable).1 =
      Except.error PyExc.valueError ∧
    (get_port asciiClasses ReadResult.permissionDenied).1 = "3001" ∧
    (get_port asciiClasses ReadResult.undecodable).1 = "3001" :=
  ⟨rfl, rfl, rfl, rfl, rfl, rfl⟩

/-- Claim C10 (amended): for every regex engine whose `\d` class contains
the ASCII digits (as every Unicode version's Nd does), every
port-resolution helper is probe-free, and on every filesystem state whose
read raises no exception it terminates normally and returns a base URL or
port string whose digits all lie in that `\d` class, with fixed ASCII
defaults (`http://localhost:5173`, port `5173`, port `3001`) when the log
is absent or holds no match; `get_port` alone is total on all states
(including unreadable and undecodable logs), while `get_dev_server_url`
and the `verify_director` port block propagate the `OSError` of an
unreadable log and the `UnicodeDecodeError` of an undecodable one. -/
theorem port_resolution_helpers_amended (rc : RegexClasses)
    (hD : ∀ c, c.isDigit = true → rc.isD c = true) :
    (∀ fs, isPortStringBy rc.isD (get_port rc fs).1 = true) ∧
    (∀ fs u, Effect.netProbe u ∉ (get_dev_server_url rc fs).2 ∧
      Effect.netProbe u ∉ (get_port rc fs).2 ∧
      Effect.netProbe u ∉ (director_port rc fs).2) ∧
    (∀ c, ∃ u, (get_dev_server_url rc (ReadResult.ok c)).1 = Except.ok u ∧
      isBaseUrlBy rc.isD u = true) ∧
    ((get_dev_server_url rc ReadResult.notFound).1 =
      Except.ok "http://localhost:5173") ∧
    (isBaseUrlBy rc.isD "http://localhost:5173" = true) ∧
    (∀ c, ∃ p, (director_port rc (ReadResult.ok c)).1 = Except.ok p ∧
      isPortStringBy rc.isD p = true) ∧
    ((director_port rc ReadResult.notFound).1 = Except.ok "5173") := by
  refine ⟨?_, ?_, ?_, rfl, @isBaseUrlBy_mono rc.isD hD "http://localhost:5173" (by decide), ?_, rfl⟩
  · intro fs
    cases fs with
    | ok c =>
      cases hs : searchGhostPort rc c.toList with
      | some d =>
        obtain ⟨hne, hd⟩ := searchGhostPort_some hs
        simp only [get_port, hs]
        exact isPortStringBy_mk hne hd
      | none =>
        simp only [get_port, hs]
        exact @isPortStringBy_mono rc.isD hD "3001" (by decide)
    | notFound => exact @isPortStringBy_mono rc.isD hD "3001" (by decide)
    | permissionDenied => exact @isPortStringBy_mono rc.isD hD "3001" (by decide)
    | undecodable => exact @isPortStringBy_mono rc.isD hD "3001" (by decide)
  · intro fs u
    refine ⟨?_, ?_, ?_⟩
    · cases fs with
      | ok c =>
        cases hs : searchUrl rc c.toList <;>
          simp only [get_dev_server_url, hs] <;> simp
      | notFound => simp [get_dev_server_url]
      | permissionDenied => simp [get_dev_server_url]
      | undecodable => simp [get_dev_server_url]
    · cases fs with
      | ok c =>
        cases hs : searchGhostPort rc c.toList <;>
          simp only [get_port, hs] <;> simp
      | notFound => simp [get_port]
      | permissionDenied => simp [get_port]
      | undecodable => simp [get_port]
    · cases fs with
      | ok c =>
        cases hs : searchUrlPort rc c.toList <;>
          simp only [director_port, hs] <;> simp
      | notFound => simp [director_port]
      | permissionDenied => simp [director_port]
      | undecodable => simp [director_port]
  · intro c
    cases hs : searchUrl rc c.toList with
    | some m =>
      obtain ⟨d, hne, hd, hm⟩ := searchUrl_some hs
      refine ⟨String.mk m, by simp only [get_dev_server_url, hs], ?_⟩
      rw [hm]
      exact isBaseUrlBy_append hne hd
    | none =>
      exact ⟨"http://localhost:5173", by simp only [get_dev_server_url, hs],
        @isBaseUrlBy_mono rc.isD hD "http://localhost:5173" (by decide)⟩
  · intro c
    cases hs : searchUrlPort rc c.toList with
    | some d =>
      obtain ⟨hne, hd⟩ := searchUrlPort_some hs
      exact ⟨String.mk d, by simp only [director_port, hs], isPortStringBy_mk hne hd⟩
    | none =>
      exact ⟨"5173", by simp only [director_port, hs],
        @isPortStringBy_mono rc.isD hD "5173" (by decide)⟩

/-- Claim C10 witness: the amended theorem applied at the ASCII instance of
the engine classes (which trivially contains the ASCII digits) and
evaluated at the absent-log state. -/
theorem port_resolution_helpers_amended_witness :
    isPortStringBy asciiClasses.isD (get_port asciiClasses ReadResult.notFound).1 = true ∧
    Effect.netProbe "http://localhost:5173" ∉
      (get_dev_server_url asciiClasses ReadResult.notFound).2 :=
  ⟨(port_resolution_helpers_amended asciiClasses (fun _ h => h)).1 ReadResult.notFound,
   ((port_resolution_helpers_amended asciiClasses (fun _ h => h)).2.1
      ReadResult.notFound "http://localhost:5173").1⟩

/-- With a Unicode-aware digit class (here a fragment of Nd containing the
Arabic-Indic digits), the embedded `get_dev_server_url` matches a log URL
whose port is written with the digit `٥` (U+0665) exactly as Python's `re`
does, returning that URL rather than the ASCII default — the behaviour an
ASCII-only model of `\d` would miss. -/
theorem get_dev_server_url_unicode_digit :
    (get_dev_server_url ndSampleClasses (ReadResult.ok "http://localhost:٥")).1 =
      Except.ok "http://localhost:٥" ∧
    (director_port ndSampleClasses (ReadResult.ok "http://localhost:٥")).1 =
      Except.ok "٥" ∧
    (get_dev_server_url asciiClasses (ReadResult.ok "http://localhost:٥")).1 =
      Except.ok "http://localhost:5173" :=
  ⟨rfl, rfl, rfl⟩

/-! ## Claims about the modelled harness core -/

/-- Claim C1: strict fail-fast — when step `i` (0-based) is the first step to
fail, the runner records exactly `i + 1` StepResults: status `ok` for every
earlier step, one `failed` result for step `i`, and no result for any later
step. -/
theorem scenario_fail_fast (w : World) (dir : String) (steps : List Step)
    (n i : Nat) (e : ErrorKind) (hi : i < steps.length)
    (hok : ∀ j, j < i → w.stepOutcome (n + j) = StepOutcome.ok)
    (hfail : w.stepOutcome (n + i) = StepOutcome.fail e) :
    (runSteps w dir steps n).length = i + 1 ∧
    (∀ j, j < i →
      ((runSteps w dir steps n)[j]?).map StepResult.status = some StepStatus.ok) ∧
    ((runSteps w dir steps n)[i]?).map StepResult.status = some StepStatus.failed := by
  induction steps generalizing n i with
  | nil => exact absurd hi (by simp)
  | cons st rest ih =>
    cases i with
    | zero =>
      have h0 : w.stepOutcome n = StepOutcome.fail e := by simpa using hfail
      refine ⟨?_, ?_, ?_⟩ <;> simp [runSteps, h0]
    | succ i' =>
      have h0 : w.stepOutcome n = StepOutcome.ok := by
        simpa using hok 0 (Nat.succ_pos i')
      have hi' : i' < rest.length := by simpa using hi
      have hok' : ∀ j, j < i' → w.stepOutcome (n + 1 + j) = StepOutcome.ok := by
        intro j hj
        have he : n + 1 + j = n + (j + 1) := by omega
        rw [he]
        exact hok (j + 1) (by omega)
      have hfail' : w.stepOutcome (n + 1 + i') = StepOutcome.fail e := by
        have he : n + 1 + i' = n + (i' + 1) := by omega
        rw [he]
        exact hfail
      obtain ⟨hl, hoks, hf⟩ := ih (n + 1) i' hi' hok' hfail'
      refine ⟨?_, ?_, ?_⟩
      · simp [runSteps, h0, hl]
      · intro j hj
        cases j with
        | zero => simp [runSteps, h0]
        | succ j' =>
          have := hoks j' (by omega)
          simpa [runSteps, h0] using this
      · simpa [runSteps, h0] using hf

/-- Claim C1 witness: three steps, the second fails — exactly two results,
first ok, second failed. -/
theorem scenario_fail_fast_witness :
    (runSteps worldFailW "verification/director" stepsW 0).length = 2 ∧
    ((runSteps worldFailW "verification/director" stepsW 0)[0]?).map
      StepResult.status = some StepStatus.ok ∧
    ((runSteps worldFailW "verification/director" stepsW 0)[1]?).map
      StepResult.status = some StepStatus.failed := by
  obtain ⟨h1, h2, h3⟩ := scenario_fail_fast worldFailW "verification/director" stepsW
    0 1 ErrorKind.assertionMismatch (by decide)
    (by intro j hj; interval_cases j; rfl) rfl
  exact ⟨h1, h2 0 (by decide), h3⟩

/-- Claim C2: Target Resolver priority law — when the hint at position `i`
derives a live endpoint and every earlier hint derives nothing or an
unreachable endpoint, `resolve` returns that endpoint. -/
theorem resolve_first_live (probe : TargetEndpoint → Bool) (fs : String → ReadResult)
    (hints : List EndpointHint) (i : Nat) (h : EndpointHint) (e : TargetEndpoint)
    (hget : hints[i]? = some h)
    (hder : deriveCandidate fs h = some e)
    (hlive : probe e = true)
    (hearlier : ∀ j, j < i → ∀ h' e', hints[j]? = some h' →
      deriveCandidate fs h' = some e' → probe e' = false) :
    resolve probe fs hints = some e := by
  induction hints generalizing i with
  | nil => simp at hget
  | cons hd tl ih =>
    cases i with
    | zero =>
      have hh : hd = h := by simpa using hget
      subst hh
      simp [resolve, hder, hlive]
    | succ i' =>
      cases hdc : deriveCandidate fs hd with
      | none =>
        simp only [resolve, hdc]
        exact ih i' (by simpa using hget)
          (fun j hj h' e' hg hd' =>
            hearlier (j + 1) (by omega) h' e' (by simpa using hg) hd')
      | some e0 =>
        have hpe : probe e0 = false :=
          hearlier 0 (Nat.succ_pos i') hd e0 (by simp) hdc
        simp only [resolve, hdc, hpe, Bool.false_eq_true, if_false]
        exact ih i' (by simpa using hget)
          (fun j hj h' e' hg hd' =>
            hearlier (j + 1) (by omega) h' e' (by simpa using hg) hd')

/-- Claim C2 witness: the spec's end-to-end example — a dead explicit
`localhost:9999` before a live default `localhost:3000`; the resolver
returns `localhost:3000`. -/
theorem resolve_first_live_witness :
    resolve probeW fsEmptyW hintsW = some ⟨"localhost", 3000, "http"⟩ := by
  refine resolve_first_live probeW fsEmptyW hintsW 1 (EndpointHint.defaultPort 3000)
    ⟨"localhost", 3000, "http"⟩ rfl rfl rfl ?_
  intro j hj h' e' hg hd'
  have hj0 : j = 0 := by omega
  subst hj0
  simp only [hintsW] at hg
  have hh : EndpointHint.explicitHint "localhost" 9999 = h' := by simpa using hg
  subst hh
  have he : e' = ⟨"localhost", 9999, "http"⟩ := by
    simpa [deriveCandidate] using hd'.symm
  subst he
  rfl

/-- Claim C3: ambiguity is failure — when the chain reaches a strategy that
matches more than one element (all earlier strategies matched nothing),
`locate` fails with `AmbiguousMatch` and never returns a handle. -/
theorem locate_ambiguous_fails {Dom : Type} (strategies : List (LocatorStrategy Dom))
    (dom : Dom) (i : Nat) (s : LocatorStrategy Dom)
    (hget : strategies[i]? = some s)
    (hmulti : 1 < (s.hits dom).length)
    (hearlier : ∀ j, j < i → ∀ s', strategies[j]? = some s' → s'.hits dom = []) :
    locate strategies dom = Except.error LocError.ambiguousMatch ∧
    ∀ el, locate strategies dom ≠ Except.ok el := by
  have hmain : locate strategies dom = Except.error LocError.ambiguousMatch := by
    induction strategies generalizing i with
    | nil => simp at hget
    | cons s0 rest ih =>
      cases i with
      | zero =>
        have hs : s0 = s := by simpa using hget
        subst hs
        cases hh : s0.hits dom with
        | nil => rw [hh] at hmulti; simp at hmulti
        | cons a t =>
          cases t with
          | nil => rw [hh] at hmulti; simp at hmulti
          | cons b t2 => simp [locate, hh]
      | succ i' =>
        have h0 : s0.hits dom = [] := hearlier 0 (Nat.succ_pos i') s0 (by simp)
        simp only [locate, h0]
        exact ih i' (by simpa using hget)
          (fun j hj s' hg => hearlier (j + 1) (by omega) s' (by simpa using hg))
  refine ⟨hmain, fun el hel => ?_⟩
  rw [hmain] at hel
  exact Except.noConfusion hel

/-- Claim C3 witness: first strategy matches nothing, second matches two
elements — resolution is `AmbiguousMatch`. -/
theorem locate_ambiguous_fails_witness :
    locate stratAmbW () = Except.error LocError.ambiguousMatch := by
  refine (locate_ambiguous_fails stratAmbW () 1 ⟨.css, fun _ => [1, 2], 5⟩
    rfl (by decide) ?_).1
  intro j hj s' hg
  have hj0 : j = 0 := by omega
  subst hj0
  have hs : (⟨.role, fun _ => [], 5⟩ : LocatorStrategy Unit) = s' := by
    simpa [stratAmbW] using hg
  subst hs
  rfl

/-- Claim C4: evidence on every failure — every StepResult with status
`failed` carries at least one captured artifact. -/
theorem failed_step_has_artifacts (w : World) (dir : String) (steps : List Step)
    (n : Nat) :
    ∀ r ∈ runSteps w dir steps n, r.status = StepStatus.failed →
      1 ≤ r.artifactRefs.length := by
  induction steps generalizing n with
  | nil => simp [runSteps]
  | cons st rest ih =>
    intro r hr hst
    cases ho : w.stepOutcome n with
    | ok =>
      simp only [runSteps, ho] at hr
      rcases List.mem_cons.mp hr with h | h
      · subst h; simp at hst
      · exact ih (n + 1) r h hst
    | fail e =>
      simp only [runSteps, ho] at hr
      rcases List.mem_cons.mp hr with h | h
      · subst h; simp [failureCapture]
      · simp at h

/-- Claim C4 witness: the failed second step of the concrete run carries its
automatic capture. -/
theorem failed_step_has_artifacts_witness :
    1 ≤ (⟨"open-history", StepStatus.failed, some ErrorKind.assertionMismatch,
      failureCapture "verification/director" 1⟩ : StepResult).artifactRefs.length :=
  failed_step_has_artifacts worldFailW "verification/director" stepsW 0
    ⟨"open-history", StepStatus.failed, some ErrorKind.assertionMismatch,
      failureCapture "verification/director" 1⟩ (by decide) rfl

/-- Claim C5: process exit contract — the run's exit code is 0 iff every
scenario's result is `pass`. -/
theorem exit_code_zero_iff_all_pass (ws : List (World × Scenario)) :
    (runAll ws).2 = 0 ↔
      ∀ pr ∈ ws, (runScenario pr.1 pr.2).status = ScenarioStatus.pass := by
  have key : (ws.map (fun pr => runScenario pr.1 pr.2)).all
      (fun r => r.status == ScenarioStatus.pass) = true ↔
      ∀ pr ∈ ws, (runScenario pr.1 pr.2).status = ScenarioStatus.pass := by
    rw [List.all_eq_true]
    constructor
    · intro h pr hpr
      simpa using h _ (List.mem_map_of_mem _ hpr)
    · intro h r hr
      obtain ⟨pr, hpr, hre⟩ := List.mem_map.mp hr
      subst hre
      simpa using h pr hpr
  simp only [runAll, exitCode]
  by_cases hall : (ws.map (fun pr => runScenario pr.1 pr.2)).all
      (fun r => r.status == ScenarioStatus.pass) = true
  · rw [if_pos hall]
    exact iff_of_true rfl (key.mp hall)
  · rw [if_neg hall]
    exact iff_of_false (by omega) (fun hp => hall (key.mpr hp))

/-- Claim C5 witness: a run whose only scenario passes exits with code 0. -/
theorem exit_code_zero_iff_all_pass_witness :
    (runAll wsAllPassW).2 = 0 := by
  refine (exit_code_zero_iff_all_pass wsAllPassW).mpr ?_
  intro pr hpr
  simp only [wsAllPassW, List.mem_singleton] at hpr
  subst hpr
  rfl

/-- Claim C6: assertion failure is data, not control flow — on a live session
the Assertion Engine returns the structured outcome for every expectation
(never an error), it raises only when the session is dead, and the
`notFound` error kind is distinct from `assertionMismatch`. -/
theorem assertion_failure_is_data (s : Session) (e : Expectation) :
    (s.alive = true → assertState s e = Except.ok (evalExpectation s.dom e)) ∧
    (s.alive = false → assertState s e = Except.error HarnessFault.sessionDead) ∧
    ErrorKind.notFound ≠ ErrorKind.assertionMismatch := by
  refine ⟨?_, ?_, by decide⟩
  · intro ha; simp [assertState, ha]
  · intro ha; simp [assertState, ha]

/-- Claim C6 witness: a failed expectation on a live session yields a
structured `holds = false` outcome, not an error. -/
theorem assertion_failure_is_data_witness :
    assertState sessionW expFailW = Except.ok (evalExpectation sessionW.dom expFailW) ∧
    (evalExpectation sessionW.dom expFailW).holds = false :=
  ⟨(assertion_failure_is_data sessionW expFailW).1 rfl, rfl⟩

theorem pollStrategy_hits_within {Dom : Type} (s : LocatorStrategy Dom)
    (domAt : Nat → Dom) (start fuel t el : Nat) (ht : t < fuel)
    (hnone : ∀ u, u < t → s.hits (domAt (start + u)) = [])
    (hone : s.hits (domAt (start + t)) = [el]) :
    pollStrategy s domAt start fuel = some (Except.ok el) := by
  induction fuel generalizing start t with
  | zero => omega
  | succ f ih =>
    cases t with
    | zero =>
      have h0 : s.hits (domAt start) = [el] := by simpa using hone
      simp [pollStrategy, h0]
    | succ t' =>
      have h0 : s.hits (domAt start) = [] := by
        simpa using hnone 0 (Nat.succ_pos t')
      simp only [pollStrategy, h0]
      refine ih (start + 1) t' (by omega) ?_ ?_
      · intro u hu
        have he : start + 1 + u = start + (u + 1) := by omega
        rw [he]
        exact hnone (u + 1) (by omega)
      · have he : start + 1 + t' = start + (t' + 1) := by omega
        rw [he]
        exact hone

theorem pollStrategy_exhausts {Dom : Type} (s : LocatorStrategy Dom)
    (domAt : Nat → Dom) (start fuel : Nat)
    (h : ∀ t, t < fuel → s.hits (domAt (start + t)) = []) :
    pollStrategy s domAt start fuel = none := by
  induction fuel generalizing start with
  | zero => rfl
  | succ f ih =>
    have h0 : s.hits (domAt start) = [] := by simpa using h 0 (Nat.succ_pos f)
    simp only [pollStrategy, h0]
    refine ih (start + 1) ?_
    intro t ht
    have he : start + 1 + t = start + (t + 1) := by omega
    rw [he]
    exact h (t + 1) (by omega)

/-- Claim C7: locator-chain order and budget — a strategy that matches
exactly one element at some tick within its own sub-timeout (after matching
nothing at every earlier tick, so the chain did not abandon it on a failed
instantaneous probe) makes the chain return that element without consulting
later strategies; and only when the strategy matches nothing for its whole
sub-timeout does the chain advance, in declared order, to the remaining
strategies with the clock moved past the spent budget. -/
theorem locator_chain_order_and_budget {Dom : Type} (s : LocatorStrategy Dom)
    (rest : List (LocatorStrategy Dom)) (domAt : Nat → Dom) (start : Nat) :
    (∀ t el, t < s.subTimeout →
      (∀ u, u < t → s.hits (domAt (start + u)) = []) →
      s.hits (domAt (start + t)) = [el] →
      locateTimed (s :: rest) domAt start = Except.ok el) ∧
    ((∀ t, t < s.subTimeout → s.hits (domAt (start + t)) = []) →
      locateTimed (s :: rest) domAt start =
        locateTimed rest domAt (start + s.subTimeout)) := by
  constructor
  · intro t el ht hnone hone
    have hp := pollStrategy_hits_within s domAt start s.subTimeout t el ht hnone hone
    simp [locateTimed, hp]
  · intro hall
    have hp := pollStrategy_exhausts s domAt start s.subTimeout hall
    simp [locateTimed, hp]

/-- Claim C7 witness: an element that mounts only at tick 2 is still found by
a strategy with sub-timeout 5 — the chain does not abandon the strategy on
its first failed probe. -/
theorem locator_chain_order_and_budget_witness :
    locateTimed [stratLateW] (fun t => t) 0 = Except.ok 7 :=
  (locator_chain_order_and_budget stratLateW [] (fun t => t) 0).1 2 7 (by decide)
    (by intro u hu; interval_cases u <;> rfl) rfl

/-- Claim C8: scoped resource release — on every execution path, if the
scenario opened a browser session, that session is closed when the scenario
terminates. -/
theorem session_closed_on_every_path (w : World) (sc : Scenario)
    (h : (runScenario w sc).sessionOpened = true) :
    (runScenario w sc).sessionClosed = true := by
  simp only [runScenario, closeSession] at h ⊢
  exact h

/-- Claim C8 witness: a run whose second step fails still closes its
session. -/
theorem session_closed_on_every_path_witness :
    (runScenario worldFailW scW).sessionClosed = true :=
  session_closed_on_every_path worldFailW scW rfl

/-- Claim C9: bounded waiting — the polling primitive every blocking
operation is built on returns, within its budget, the first tick at which
the condition holds, reports exhaustion only when the condition held at no
tick of the budget (a polled condition, never an unconditional delay), and
the Readiness Gate built on it either times out or succeeds within its
budget at a tick where the readiness signals hold. -/
theorem waits_are_polled_and_bounded :
    (∀ cond start fuel t, pollUntil cond start fuel = some t →
      start ≤ t ∧ t < start + fuel ∧ cond t = true) ∧
    (∀ cond start fuel, pollUntil cond start fuel = none →
      ∀ t, start ≤ t → t < start + fuel → cond t = false) ∧
    (∀ p start, awaitReady p start = Except.error ErrorKind.readinessTimeout ∨
      ∃ t, awaitReady p start = Except.ok t ∧ t < start + p.timeoutMs ∧
        signalsHold p t = true) := by
  have hsome : ∀ cond fuel start t, pollUntil cond start fuel = some t →
      start ≤ t ∧ t < start + fuel ∧ cond t = true := by
    intro cond fuel
    induction fuel with
    | zero => intro start t h; simp [pollUntil] at h
    | succ f ih =>
      intro start t h
      rw [pollUntil] at h
      by_cases hc : cond start = true
      · rw [if_pos hc] at h
        obtain rfl : start = t := Option.some.inj h
        exact ⟨Nat.le_refl _, by omega, hc⟩
      · rw [if_neg hc] at h
        obtain ⟨h1, h2, h3⟩ := ih (start + 1) t h
        exact ⟨by omega, by omega, h3⟩
  have hnone : ∀ cond fuel start, pollUntil cond start fuel = none →
      ∀ t, start ≤ t → t < start + fuel → cond t = false := by
    intro cond fuel
    induction fuel with
    | zero => intro start h t h1 h2; omega
    | succ f ih =>
      intro start h t h1 h2
      rw [pollUntil] at h
      by_cases hc : cond start = true
      · rw [if_pos hc] at h; exact absurd h (by simp)
      · rw [if_neg hc] at h
        rcases Nat.eq_or_lt_of_le h1 with heq | hlt
        · subst heq
          cases hcb : cond start with
          | true => exact absurd hcb hc
          | false => rfl
        · exact ih (start + 1) h t (by omega) (by omega)
  refine ⟨fun c s f t h => hsome c f s t h, fun c s f h => hnone c f s h, ?_⟩
  intro p start
  cases hp : pollUntil (signalsHold p) start p.timeoutMs with
  | none =>
    left
    simp [awaitReady, hp]
  | some t =>
    right
    obtain ⟨-, h2, h3⟩ := hsome _ _ _ _ hp
    exact ⟨t, by simp [awaitReady, hp], h2, h3⟩

/-- Claim C9 witness: polling a condition that first holds at tick 2 with
budget 5 returns within the budget at a tick where the condition holds. -/
theorem waits_are_polled_and_bounded_witness :
    0 ≤ 2 ∧ 2 < 0 + 5 ∧ condW 2 = true :=
  waits_are_polled_and_bounded.1 condW 0 5 2 rfl

end MyWorld
